import Mathlib

/-
Verification of the CacheMunk cache core (src/server/src/cache/cache.ts).

The cache is a thin layer over a Redis backend: `set` encodes a payload
(optionally compressing it with snappy), writes it under a TTL and registers
the key under each named dependency set `dependency:<name>`; `get` reads the
raw value back and decodes it; `invalidate` deletes every key registered under
a dependency name together with the dependency record itself.

The backend store (Redis) is an external collaborator, out of scope of the
repository; its command semantics (SET .. EX, SADD, EXPIRE, SMEMBERS, DEL and
an atomic MULTI/EXEC batch) are modelled here from the spec, section 6.  The
snappy compressor is an external library; it is modelled from the spec,
section 4.1, as an executable lossless codec (a run-length encoder).
Everything else is translated directly from cache.ts.
-/

set_option autoImplicit false

deriving instance DecidableEq for Except

namespace CacheMunk

/-- A byte sequence, standing for a JS string or Buffer payload. -/
abbrev Bytes := List Nat

/-- A value held by the backend at one key: either a string/binary blob
(written by SET) or a set of members (written by SADD). -/
inductive RVal where
  | str (v : Bytes)
  | sset (ms : List String)
deriving DecidableEq

/-- A backend entry: its value together with its absolute expiry instant
(`none` means no expiry; the entry is live at time `now` iff `now` is before
the expiry instant). -/
structure Entry where
  val : RVal
  expiresAt : Option Nat
deriving DecidableEq

/-- The backend store: a clock plus an association list from keys to entries
(at most one binding per key is ever produced by the operations below). -/
structure RState where
  now : Nat
  store : List (String × Entry)
deriving DecidableEq

/-- Whether an entry is live at time `now` (Redis expiry semantics: a key
written with TTL t at time w is gone from time w + t on). -/
def isLive (now : Nat) (e : Entry) : Bool :=
  match e.expiresAt with
  | none => true
  | some t => now < t

/-- First binding for key `k` in an association list. -/
def findIn (k : String) : List (String × Entry) → Option Entry
  | [] => none
  | (k0, e) :: t => if k0 = k then some e else findIn k t

/-- Remove every binding for key `k`. -/
def eraseKey (k : String) : List (String × Entry) → List (String × Entry)
  | [] => []
  | (k0, e) :: t => if k0 = k then eraseKey k t else (k0, e) :: eraseKey k t

/-- Bind key `k` to entry `e`, dropping any previous binding. -/
def upsert (st : List (String × Entry)) (k : String) (e : Entry) :
    List (String × Entry) :=
  (k, e) :: eraseKey k st

/-- The raw entry at key `k` (whether live or expired). -/
def findEntry (s : RState) (k : String) : Option Entry := findIn k s.store

/-- The live value at key `k`: `none` on a missing or expired entry. -/
def lookup (s : RState) (k : String) : Option RVal :=
  match findEntry s k with
  | some e => if isLive s.now e then some e.val else none
  | none => none

/-- Modelled from the spec: backend SMEMBERS — members of the live set at
key `k`, `[]` when the key is missing or expired. -/
def smembers (s : RState) (k : String) : List String :=
  match lookup s k with
  | some (.sset ms) => ms
  | _ => []

/-- Absolute expiry instant recorded for key `k`, if an entry exists. -/
def expiryOf (s : RState) (k : String) : Option Nat :=
  match findEntry s k with
  | some e => e.expiresAt
  | none => none

/-- Advance the backend clock by `seconds` (TTL expiry is backend-driven). -/
def tick (s : RState) (seconds : Nat) : RState := ⟨s.now + seconds, s.store⟩

/-- A backend with no entries, at time `t`. -/
def emptyState (t : Nat) : RState := ⟨t, []⟩

/-- Modelled from the spec: the snappy compressor (an external library, not
part of the repository) is, per section 4.1, "a lossless general-purpose
compressor"; it is modelled as an executable run-length encoder.  This
collects consecutive equal bytes into (byte, run length) pairs. -/
def rleEncode : Bytes → List (Nat × Nat)
  | [] => []
  | a :: l =>
    match rleEncode l with
    | [] => [(a, 1)]
    | (b, n) :: t => if a = b then (b, n + 1) :: t else (a, 1) :: (b, n) :: t

/-- Expand (byte, run length) pairs back into a byte sequence. -/
def rleDecode : List (Nat × Nat) → Bytes
  | [] => []
  | (b, n) :: t => List.replicate n b ++ rleDecode t

/-- Serialize (byte, run length) pairs as a flat byte sequence. -/
def flattenRuns : List (Nat × Nat) → Bytes
  | [] => []
  | (b, n) :: t => n :: b :: flattenRuns t

/-- Parse a flat byte sequence back into (byte, run length) pairs; fails on
a malformed (odd length) input. -/
def parseRuns : Bytes → Option (List (Nat × Nat))
  | [] => some []
  | [_] => none
  | n :: b :: t => (parseRuns t).map (fun r => (b, n) :: r)

/-- Modelled from the spec: snappy compress. -/
def compress (p : Bytes) : Bytes := flattenRuns (rleEncode p)

/-- Modelled from the spec: snappy uncompress; fails (CorruptData) on bytes
that are not a valid compressed stream. -/
def uncompress (b : Bytes) : Option Bytes := (parseRuns b).map rleDecode

theorem parseRuns_flattenRuns (ps : List (Nat × Nat)) :
    parseRuns (flattenRuns ps) = some ps := by
  induction ps with
  | nil => rfl
  | cons p t ih => cases p with | mk b n => simp [flattenRuns, parseRuns, ih]

theorem rleDecode_rleEncode (l : Bytes) : rleDecode (rleEncode l) = l := by
  induction l with
  | nil => rfl
  | cons a l ih =>
    cases h : rleEncode l with
    | nil =>
      simp [rleEncode, h, rleDecode]
      have : rleDecode (rleEncode l) = l := ih
      rw [h] at this
      simpa [rleDecode] using this.symm
    | cons p t =>
      cases p with | mk b n =>
      by_cases hab : a = b
      · subst hab
        have : rleDecode ((a, n) :: t) = l := by rw [← h]; exact ih
        simp [rleEncode, h, rleDecode, List.replicate_succ] at this ⊢
        simpa [rleDecode] using this
      · have : rleDecode ((b, n) :: t) = l := by rw [← h]; exact ih
        simp [rleEncode, h, hab, rleDecode] at this ⊢
        simpa [rleDecode] using this

/-- The modelled compressor is lossless, as the spec requires of snappy. -/
theorem uncompress_compress (p : Bytes) : uncompress (compress p) = some p := by
  simp [uncompress, compress, parseRuns_flattenRuns, rleDecode_rleEncode]

/-- Modelled from the spec, section 6: the backend commands the cache issues.
`setEx k v ttl` is SET k v EX ttl, `sadd` adds a member to a set, `expire`
refreshes a key's TTL, `del` removes a key. -/
inductive Cmd where
  | setEx (k : String) (v : Bytes) (ttl : Nat)
  | sadd (k : String) (m : String)
  | expire (k : String) (ttl : Nat)
  | del (k : String)
deriving DecidableEq

/-- The key a command addresses. -/
def keyOf : Cmd → String
  | .setEx k _ _ => k
  | .sadd k _ => k
  | .expire k _ => k
  | .del k => k

/-- The entry SADD leaves at key `k`: the live set extended with the member
(keeping its expiry), or a fresh set with no expiry when the key is missing,
expired, or holds a non-set value. -/
def saddEntry (s : RState) (k m : String) : Entry :=
  match findEntry s k with
  | some e0 =>
    if isLive s.now e0 then
      match e0.val with
      | .sset ms => ⟨.sset (if m ∈ ms then ms else ms ++ [m]), e0.expiresAt⟩
      | .str _ => ⟨.sset [m], none⟩
    else ⟨.sset [m], none⟩
  | none => ⟨.sset [m], none⟩

/-- Modelled from the spec, section 6: the effect of one backend command.
SET overwrites any entry and sets its expiry `now + ttl`; SADD adds a member
to the live set at the key (see saddEntry); EXPIRE refreshes the expiry of a
live entry and does nothing otherwise; DEL removes the key. -/
def applyCmd (s : RState) : Cmd → RState
  | .setEx k v ttl => ⟨s.now, upsert s.store k ⟨.str v, some (s.now + ttl)⟩⟩
  | .sadd k m => ⟨s.now, upsert s.store k (saddEntry s k m)⟩
  | .expire k ttl =>
    match findEntry s k with
    | some e0 =>
      if isLive s.now e0 then ⟨s.now, upsert s.store k ⟨e0.val, some (s.now + ttl)⟩⟩
      else s
    | none => s
  | .del k => ⟨s.now, eraseKey k s.store⟩

/-- A list of commands applied in submission order. -/
def applyCmds (s : RState) (cs : List Cmd) : RState := cs.foldl applyCmd s

/-- Modelled from the spec, section 6: one atomic interaction with the
backend — either a single command or a MULTI/EXEC batch, which the backend
applies all-or-nothing and opaquely to concurrent readers. -/
inductive Action where
  | single (c : Cmd)
  | batch (cs : List Cmd)
deriving DecidableEq

/-- The effect of one atomic interaction. -/
def applyAction (s : RState) : Action → RState
  | .single c => applyCmd s c
  | .batch cs => applyCmds s cs

/-- The effect of a sequence of atomic interactions. -/
def applyTrace (s : RState) (as : List Action) : RState := as.foldl applyAction s

/-- The backend states observable by a concurrent reader while a trace runs:
the state before, between, and after its atomic interactions (a batch is a
single such interaction, per the spec's MULTI/EXEC semantics). -/
def statesOf (s : RState) : List Action → List RState
  | [] => [s]
  | a :: as => s :: statesOf (applyAction s a) as

/-- The typed errors the cache surfaces (spec section 7): `entryTooLarge`
is the `throw new Error('maxEntrySize exceeded')` of cache.ts line 56;
`corruptData` is a decompression failure on read. -/
inductive Err where
  | entryTooLarge
  | corruptData
deriving DecidableEq

/-- The resolved, immutable configuration of one cache instance
(cache.ts lines 19-31). -/
structure Config where
  compression : Bool
  defaultTtl : Nat
  maxEntrySize : Nat
deriving DecidableEq

/-- The options accepted by configureCache (cache.ts lines 6-13), minus the
backend handle and the inert hit/miss hooks. -/
structure Options where
  defaultTtl : Option Int
  maxEntrySize : Option Int
  compression : Option Bool
deriving DecidableEq

/-- Translated from configureCache (cache.ts lines 16-31): compression is on
only for an explicit `true`; defaultTtl falls back to 3600 unless a positive
value is given; maxEntrySize falls back to 5000000 unless a positive value
is given (`options.x && options.x > 0` is false on 0, negative and missing
values alike). -/
def configureCache (options : Options) : Config :=
  { compression :=
      match options.compression with
      | some true => true
      | _ => false
    defaultTtl :=
      match options.defaultTtl with
      | some t => if 0 < t then t.toNat else 3600
      | none => 3600
    maxEntrySize :=
      match options.maxEntrySize with
      | some m => if 0 < m then m.toNat else 5000000
      | none => 5000000 }

/-- The derived backend key of a dependency record
(cache.ts lines 76 and 149). -/
def dependencyKey (dependency : String) : String := "dependency:" ++ dependency

/-- Translated from cache.ts lines 74-79: for each dependency, in order, one
SADD registering the query key under the dependency record plus one EXPIRE
refreshing that record's TTL to the current write's TTL. -/
def depCmds (dependencies : List String) (queryKey : String) (ttl : Nat) :
    List Cmd :=
  dependencies.flatMap fun dependency =>
    [Cmd.sadd (dependencyKey dependency) queryKey,
     Cmd.expire (dependencyKey dependency) ttl]

/-- Translated from cache.ts lines 63-89: with a non-empty dependency list,
one MULTI/EXEC batch holding the primary SET .. EX followed by the dependency
registrations; otherwise a single bare SET .. EX. -/
def buildActions (queryKey : String) (stored : Bytes)
    (dependencies : List String) (ttlInSeconds : Nat) : List Action :=
  if dependencies.length > 0 then
    [Action.batch (Cmd.setEx queryKey stored ttlInSeconds ::
      depCmds dependencies queryKey ttlInSeconds)]
  else
    [Action.single (Cmd.setEx queryKey stored ttlInSeconds)]

/-- Translated from the set function of cache.ts (lines 40-95): the backend
interactions `set` issues, or the error it throws before issuing any.  When
compression is on, the uncompressed payload is size-checked against
maxEntrySize (line 55) and compressed (line 60) before any backend command;
when compression is off there is no size check and the raw payload is
stored (the source's `compression && compressedData` tests select the
compressed buffer exactly when compression is enabled). -/
def setActions (cfg : Config) (queryKey : String) (data : Bytes)
    (dependencies : List String) (ttlInSeconds : Nat) :
    Except Err (List Action) :=
  if cfg.compression then
    if data.length > cfg.maxEntrySize then
      .error .entryTooLarge
    else
      .ok (buildActions queryKey (compress data) dependencies ttlInSeconds)
  else
    .ok (buildActions queryKey data dependencies ttlInSeconds)

/-- Run `set` against a backend state: an error leaves the backend untouched
(the throw happens before any backend command is issued); otherwise the
issued trace is applied. -/
def setExec (cfg : Config) (s : RState) (queryKey : String) (data : Bytes)
    (dependencies : List String) (ttlInSeconds : Nat) : RState × Option Err :=
  match setActions cfg queryKey data dependencies ttlInSeconds with
  | .error e => (s, some e)
  | .ok acts => (applyTrace s acts, none)

/-- Translated from the get function of cache.ts (lines 98-143): a missing
or expired key is a miss (`null`, modelled as `some .. none`), not an error;
on a hit with compression on, the value was read as a Buffer (getBuffer,
line 107) and is decompressed (line 126), a decompression failure being a
CorruptData error; with compression off the stored string is returned as is.
A set-typed value (never written by this cache under a query key) is treated
as a miss. -/
def get (cfg : Config) (s : RState) (queryKey : String) :
    Except Err (Option Bytes) :=
  match lookup s queryKey with
  | some (.str v) =>
    if cfg.compression then
      match uncompress v with
      | some binaryData => .ok (some binaryData)
      | none => .error .corruptData
    else .ok (some v)
  | some (.sset _) => .ok none
  | none => .ok none

/-- Translated from the invalidate function of cache.ts (lines 146-169):
SMEMBERS on the dependency record; if any keys are registered, one MULTI/EXEC
batch deleting each of them and then the record itself; otherwise a single
DEL of the (possibly nonexistent) record.  It has no failure outcome. -/
def invalidateActions (s : RState) (dependency : String) : List Action :=
  if (smembers s (dependencyKey dependency)).length > 0 then
    [Action.batch ((smembers s (dependencyKey dependency)).map Cmd.del ++
      [Cmd.del (dependencyKey dependency)])]
  else
    [Action.single (Cmd.del (dependencyKey dependency))]

/-- Run `invalidate` against a backend state. -/
def invalidateRun (s : RState) (dependency : String) : RState :=
  applyTrace s (invalidateActions s dependency)

/-- The value `set` hands the backend for a payload: the compressed bytes
when compression is on, the raw payload otherwise. -/
def storedValue (cfg : Config) (data : Bytes) : Bytes :=
  if cfg.compression then compress data else data

/-- Whether a command is a TTL-bounded primary write (SET .. EX). -/
def isWrite : Cmd → Bool
  | .setEx _ _ _ => true
  | _ => false

theorem dependencyKey_inj {a b : String} (h : dependencyKey a = dependencyKey b) :
    a = b := by
  unfold dependencyKey at h
  cases a with | mk la =>
  cases b with | mk lb =>
  simp only [HAppend.hAppend, Append.append, String.append] at h
  injection h with h2
  exact congrArg String.mk (List.append_cancel_left h2)

theorem findIn_eraseKey_self (k : String) (st : List (String × Entry)) :
    findIn k (eraseKey k st) = none := by
  induction st with
  | nil => rfl
  | cons p t ih =>
    cases p with | mk k0 e =>
    by_cases h : k0 = k <;> simp [eraseKey, h, findIn, ih]

theorem findIn_eraseKey_ne {k k' : String} (h : k' ≠ k)
    (st : List (String × Entry)) : findIn k' (eraseKey k st) = findIn k' st := by
  induction st with
  | nil => rfl
  | cons p t ih =>
    cases p with | mk k0 e =>
    by_cases h0 : k0 = k
    · subst h0
      simp [eraseKey, findIn, Ne.symm h, ih]
    · simp only [eraseKey, if_neg h0, findIn, ih]

theorem eraseKey_of_findIn_none {k : String} {st : List (String × Entry)}
    (h : findIn k st = none) : eraseKey k st = st := by
  induction st with
  | nil => rfl
  | cons p t ih =>
    cases p with | mk k0 e =>
    by_cases h0 : k0 = k
    · simp [findIn, h0] at h
    · simp [findIn, h0] at h
      simp [eraseKey, h0, ih h]

theorem findIn_upsert_self (st : List (String × Entry)) (k : String) (e : Entry) :
    findIn k (upsert st k e) = some e := by
  simp [upsert, findIn]

theorem findIn_upsert_ne {k k' : String} (h : k' ≠ k)
    (st : List (String × Entry)) (e : Entry) :
    findIn k' (upsert st k e) = findIn k' st := by
  simp [upsert, findIn, Ne.symm h, findIn_eraseKey_ne h]

theorem now_applyCmd (s : RState) (c : Cmd) : (applyCmd s c).now = s.now := by
  cases c with
  | setEx k v ttl => rfl
  | sadd k m => rfl
  | expire k ttl =>
    simp only [applyCmd]
    cases findEntry s k with
    | none => rfl
    | some e0 => by_cases h : isLive s.now e0 <;> simp [h]
  | del k => rfl

theorem findEntry_applyCmd_ne (s : RState) (c : Cmd) {k : String}
    (h : k ≠ keyOf c) : findEntry (applyCmd s c) k = findEntry s k := by
  cases c with
  | setEx k0 v ttl =>
    simp only [keyOf] at h
    simp [applyCmd, findEntry, findIn_upsert_ne h]
  | sadd k0 m =>
    simp only [keyOf] at h
    simp [applyCmd, findEntry, findIn_upsert_ne h]
  | expire k0 ttl =>
    simp only [keyOf] at h
    simp only [applyCmd]
    cases findEntry s k0 with
    | none => rfl
    | some e0 =>
      by_cases hl : isLive s.now e0 <;>
        simp [hl, findEntry, findIn_upsert_ne h]
  | del k0 =>
    simp only [keyOf] at h
    simp [applyCmd, findEntry, findIn_eraseKey_ne h]

theorem lookup_applyCmd_ne (s : RState) (c : Cmd) {k : String}
    (h : k ≠ keyOf c) : lookup (applyCmd s c) k = lookup s k := by
  simp [lookup, findEntry_applyCmd_ne s c h, now_applyCmd]

theorem now_applyCmds (s : RState) (cs : List Cmd) :
    (applyCmds s cs).now = s.now := by
  induction cs generalizing s with
  | nil => rfl
  | cons c t ih => simp [applyCmds, List.foldl_cons] at ih ⊢; rw [ih, now_applyCmd]

theorem findEntry_applyCmds_ne (s : RState) (cs : List Cmd) {k : String}
    (h : ∀ c ∈ cs, k ≠ keyOf c) :
    findEntry (applyCmds s cs) k = findEntry s k := by
  induction cs generalizing s with
  | nil => rfl
  | cons c t ih =>
    have h1 : k ≠ keyOf c := h c (by simp)
    have h2 : ∀ c0 ∈ t, k ≠ keyOf c0 := fun c0 hc0 => h c0 (by simp [hc0])
    calc findEntry (applyCmds s (c :: t)) k
        = findEntry (applyCmds (applyCmd s c) t) k := rfl
      _ = findEntry (applyCmd s c) k := ih (applyCmd s c) h2
      _ = findEntry s k := findEntry_applyCmd_ne s c h1

theorem findEntry_setEx_self (s : RState) (k : String) (v : Bytes) (ttl : Nat) :
    findEntry (applyCmd s (.setEx k v ttl)) k =
      some ⟨.str v, some (s.now + ttl)⟩ := by
  simp [applyCmd, findEntry, findIn_upsert_self]

theorem findEntry_del_self (s : RState) (k : String) :
    findEntry (applyCmd s (.del k)) k = none := by
  simp [applyCmd, findEntry, findIn_eraseKey_self]

theorem lookup_del (s : RState) (k0 k : String) :
    lookup (applyCmd s (.del k0)) k = if k = k0 then none else lookup s k := by
  by_cases h : k = k0
  · subst h
    simp [lookup, findEntry_del_self]
  · simp [h, lookup_applyCmd_ne s (.del k0) (by simpa [keyOf] using h)]

theorem lookup_dels (ks : List String) (s : RState) (k : String) :
    lookup (applyCmds s (ks.map Cmd.del)) k =
      if k ∈ ks then none else lookup s k := by
  induction ks generalizing s with
  | nil => simp [applyCmds]
  | cons k0 t ih =>
    have step : applyCmds s ((k0 :: t).map Cmd.del) =
        applyCmds (applyCmd s (.del k0)) (t.map Cmd.del) := rfl
    rw [step, ih]
    by_cases h0 : k = k0
    · simp [h0, lookup_del]
    · by_cases ht : k ∈ t <;> simp [h0, ht, lookup_del]

theorem lookup_eq_some_iff {s : RState} {k : String} {v : RVal} :
    lookup s k = some v ↔
      ∃ e, findEntry s k = some e ∧ isLive s.now e = true ∧ e.val = v := by
  unfold lookup
  cases h : findEntry s k with
  | none => simp
  | some e => by_cases hl : isLive s.now e <;> simp [hl]

theorem smembers_mem_iff {s : RState} {dk k : String} :
    k ∈ smembers s dk ↔
      ∃ ms, lookup s dk = some (.sset ms) ∧ k ∈ ms := by
  unfold smembers
  cases h : lookup s dk with
  | none => simp
  | some v => cases v with
    | str v0 => simp
    | sset ms => simp

theorem isLive_mk_exp (now : Nat) (v : RVal) (e : Entry) :
    isLive now ⟨v, e.expiresAt⟩ = isLive now e := by
  cases e
  rfl

theorem saddEntry_mem (s : RState) (k m : String) :
    ∃ ms exp, saddEntry s k m = ⟨.sset ms, exp⟩ ∧ m ∈ ms ∧
      isLive s.now ⟨.sset ms, exp⟩ = true := by
  unfold saddEntry
  cases hf : findEntry s k with
  | none => exact ⟨[m], none, rfl, by simp, by simp [isLive]⟩
  | some e0 =>
    by_cases hl : isLive s.now e0
    · simp only [hl, if_true]
      cases hv : e0.val with
      | str v => exact ⟨[m], none, rfl, by simp, by simp [isLive]⟩
      | sset ms =>
        refine ⟨if m ∈ ms then ms else ms ++ [m], e0.expiresAt, rfl, ?_, ?_⟩
        · by_cases hm : m ∈ ms <;> simp [hm]
        · simpa [isLive_mk_exp] using hl
    · simp only [hl, if_false]
      exact ⟨[m], none, rfl, by simp, by simp [isLive]⟩

theorem saddEntry_of_live_sset {s : RState} {k : String} {e0 : Entry}
    {ms : List String} (hf : findEntry s k = some e0)
    (hl : isLive s.now e0 = true) (hv : e0.val = .sset ms) (m : String) :
    saddEntry s k m =
      ⟨.sset (if m ∈ ms then ms else ms ++ [m]), e0.expiresAt⟩ := by
  unfold saddEntry
  rw [hf]
  simp only [hl, if_true]
  rw [hv]

theorem applyCmd_expire_of_live {s : RState} {k : String} {e0 : Entry}
    (hf : findEntry s k = some e0) (hl : isLive s.now e0 = true) (ttl : Nat) :
    applyCmd s (.expire k ttl) =
      ⟨s.now, upsert s.store k ⟨e0.val, some (s.now + ttl)⟩⟩ := by
  simp only [applyCmd]
  rw [hf]
  simp only [hl, if_true]

theorem mem_smembers_sadd_self (s : RState) (k m : String) :
    m ∈ smembers (applyCmd s (.sadd k m)) k := by
  rcases saddEntry_mem s k m with ⟨ms, exp, he, hm, hlive⟩
  apply smembers_mem_iff.2
  refine ⟨ms, ?_, hm⟩
  apply lookup_eq_some_iff.2
  refine ⟨⟨.sset ms, exp⟩, ?_, ?_, rfl⟩
  · show findIn k (upsert s.store k (saddEntry s k m)) = _
    rw [findIn_upsert_self, he]
  · exact hlive

theorem smembers_sadd_preserve {s : RState} {dk k : String}
    (h : k ∈ smembers s dk) (dk' m : String) :
    k ∈ smembers (applyCmd s (.sadd dk' m)) dk := by
  rcases smembers_mem_iff.1 h with ⟨ms, hlk, hkms⟩
  by_cases hd : dk = dk'
  · subst hd
    rcases lookup_eq_some_iff.1 hlk with ⟨e0, hf, hl, hv⟩
    apply smembers_mem_iff.2
    refine ⟨if m ∈ ms then ms else ms ++ [m], ?_, ?_⟩
    · apply lookup_eq_some_iff.2
      refine ⟨⟨.sset (if m ∈ ms then ms else ms ++ [m]), e0.expiresAt⟩, ?_, ?_,
        rfl⟩
      · show findIn dk (upsert s.store dk (saddEntry s dk m)) = _
        rw [findIn_upsert_self, saddEntry_of_live_sset hf hl hv]
      · rw [now_applyCmd]
        simpa [isLive_mk_exp] using hl
    · by_cases hm : m ∈ ms <;> simp [hm, hkms]
  · apply smembers_mem_iff.2
    refine ⟨ms, ?_, hkms⟩
    rw [lookup_applyCmd_ne s _ (by simpa [keyOf] using hd)]
    exact hlk

theorem smembers_expire_preserve {s : RState} {dk k : String}
    (h : k ∈ smembers s dk) {ttl : Nat} (httl : 0 < ttl) (dk' : String) :
    k ∈ smembers (applyCmd s (.expire dk' ttl)) dk := by
  rcases smembers_mem_iff.1 h with ⟨ms, hlk, hkms⟩
  by_cases hd : dk = dk'
  · subst hd
    rcases lookup_eq_some_iff.1 hlk with ⟨e0, hf, hl, hv⟩
    apply smembers_mem_iff.2
    refine ⟨ms, ?_, hkms⟩
    apply lookup_eq_some_iff.2
    refine ⟨⟨e0.val, some (s.now + ttl)⟩, ?_, ?_, by simp [hv]⟩
    · rw [applyCmd_expire_of_live hf hl]
      show findIn dk (upsert s.store dk _) = _
      rw [findIn_upsert_self]
    · rw [applyCmd_expire_of_live hf hl]
      simp [isLive]
      exact httl
  · apply smembers_mem_iff.2
    refine ⟨ms, ?_, hkms⟩
    rw [lookup_applyCmd_ne s _ (by simpa [keyOf] using hd)]
    exact hlk

theorem applyCmds_cons (s : RState) (a : Cmd) (l : List Cmd) :
    applyCmds s (a :: l) = applyCmds (applyCmd s a) l := rfl

theorem applyCmds_append (s : RState) (l1 l2 : List Cmd) :
    applyCmds s (l1 ++ l2) = applyCmds (applyCmds s l1) l2 := by
  simp [applyCmds, List.foldl_append]

theorem depCmds_cons (d : String) (ds : List String) (qk : String) (ttl : Nat) :
    depCmds (d :: ds) qk ttl =
      Cmd.sadd (dependencyKey d) qk :: Cmd.expire (dependencyKey d) ttl ::
        depCmds ds qk ttl := by
  simp [depCmds]

theorem keyOf_mem_depCmds {c : Cmd} {ds : List String} {qk : String} {ttl : Nat}
    (h : c ∈ depCmds ds qk ttl) : ∃ d ∈ ds, keyOf c = dependencyKey d := by
  simp only [depCmds, List.mem_flatMap, List.mem_cons, List.mem_singleton,
    List.not_mem_nil, or_false] at h
  rcases h with ⟨d, hd, hc | hc⟩
  · exact ⟨d, hd, by rw [hc]; rfl⟩
  · exact ⟨d, hd, by rw [hc]; rfl⟩

theorem smembers_depCmds_preserve {k dk : String} {ttl : Nat} (httl : 0 < ttl)
    (ds : List String) (qk : String) :
    ∀ s : RState, k ∈ smembers s dk →
      k ∈ smembers (applyCmds s (depCmds ds qk ttl)) dk := by
  induction ds with
  | nil => intro s h; simpa [depCmds, applyCmds] using h
  | cons d t ih =>
    intro s h
    rw [depCmds_cons, applyCmds_cons, applyCmds_cons]
    exact ih _ (smembers_expire_preserve (smembers_sadd_preserve h _ _) httl _)

theorem registered_after_depCmds {ttl : Nat} (httl : 0 < ttl) (qk : String) :
    ∀ (ds : List String) (s : RState), ∀ d ∈ ds,
      qk ∈ smembers (applyCmds s (depCmds ds qk ttl)) (dependencyKey d) := by
  intro ds
  induction ds with
  | nil => intro s d hd; simp at hd
  | cons d0 t ih =>
    intro s d hd
    rw [depCmds_cons, applyCmds_cons, applyCmds_cons]
    rcases List.mem_cons.1 hd with h | h
    · subst h
      exact smembers_depCmds_preserve httl t qk _
        (smembers_expire_preserve (mem_smembers_sadd_self s _ qk) httl _)
    · exact ih _ d h

theorem setExec_ok {cfg : Config} {s : RState} {qk : String} {data : Bytes}
    {deps : List String} {ttl : Nat} {s1 : RState}
    (h : setExec cfg s qk data deps ttl = (s1, none)) :
    setActions cfg qk data deps ttl =
      .ok (buildActions qk (storedValue cfg data) deps ttl) ∧
    s1 = applyTrace s (buildActions qk (storedValue cfg data) deps ttl) := by
  have ha : setActions cfg qk data deps ttl =
      .ok (buildActions qk (storedValue cfg data) deps ttl) := by
    unfold setActions storedValue
    by_cases hc : cfg.compression
    · by_cases hsz : data.length > cfg.maxEntrySize
      · exfalso
        unfold setExec setActions at h
        simp [hc, hsz] at h
      · simp [hc, hsz]
    · simp [hc]
  refine ⟨ha, ?_⟩
  unfold setExec at h
  rw [ha] at h
  simp at h
  exact h.symm

theorem set_findEntry_primary {cfg : Config} {s : RState} {qk : String}
    {data : Bytes} {deps : List String} {ttl : Nat} {s1 : RState}
    (hset : setExec cfg s qk data deps ttl = (s1, none))
    (hk : ∀ d ∈ deps, qk ≠ dependencyKey d) :
    findEntry s1 qk = some ⟨.str (storedValue cfg data), some (s.now + ttl)⟩ ∧
    s1.now = s.now := by
  rcases setExec_ok hset with ⟨-, hs1⟩
  rw [hs1]
  unfold buildActions
  have hkeys : ∀ c ∈ depCmds deps qk ttl, qk ≠ keyOf c := by
    intro c hc
    rcases keyOf_mem_depCmds hc with ⟨d, hd, hkey⟩
    rw [hkey]
    exact hk d hd
  by_cases hd : deps.length > 0
  · simp only [hd, if_true]
    constructor
    · show findEntry (applyCmds (applyCmd s
        (.setEx qk (storedValue cfg data) ttl)) (depCmds deps qk ttl)) qk = _
      rw [findEntry_applyCmds_ne _ _ hkeys, findEntry_setEx_self]
    · show (applyCmds (applyCmd s
        (.setEx qk (storedValue cfg data) ttl)) (depCmds deps qk ttl)).now = _
      rw [now_applyCmds, now_applyCmd]
  · simp only [hd, if_false]
    exact ⟨findEntry_setEx_self s qk (storedValue cfg data) ttl, rfl⟩

theorem set_lookup_primary {cfg : Config} {s : RState} {qk : String}
    {data : Bytes} {deps : List String} {ttl : Nat} {s1 : RState}
    (hset : setExec cfg s qk data deps ttl = (s1, none))
    (hk : ∀ d ∈ deps, qk ≠ dependencyKey d) (httl : 0 < ttl) :
    lookup s1 qk = some (.str (storedValue cfg data)) := by
  rcases set_findEntry_primary hset hk with ⟨hf, hn⟩
  have hlt : s.now < s.now + ttl := by omega
  simp [lookup, hf, hn, isLive, hlt]

theorem set_registered {cfg : Config} {s : RState} {qk : String} {data : Bytes}
    {deps : List String} {ttl : Nat} {s1 : RState}
    (hset : setExec cfg s qk data deps ttl = (s1, none)) (httl : 0 < ttl) :
    ∀ d ∈ deps, qk ∈ smembers s1 (dependencyKey d) := by
  rcases setExec_ok hset with ⟨-, hs1⟩
  rw [hs1]
  unfold buildActions
  by_cases hd : deps.length > 0
  · simp only [hd, if_true]
    intro d hdd
    exact registered_after_depCmds httl qk deps _ d hdd
  · intro d hdd
    rcases deps with - | ⟨d0, t⟩
    · simp at hdd
    · simp at hd

theorem invalidate_deletes_member {s : RState} {name qk : String}
    (h : qk ∈ smembers s (dependencyKey name)) :
    lookup (invalidateRun s name) qk = none := by
  unfold invalidateRun invalidateActions
  have hlen : (smembers s (dependencyKey name)).length > 0 :=
    List.length_pos.2 (List.ne_nil_of_mem h)
  rw [if_pos hlen]
  show lookup (applyCmds s ((smembers s (dependencyKey name)).map Cmd.del ++
    [Cmd.del (dependencyKey name)])) qk = none
  rw [applyCmds_append]
  show lookup (applyCmd _ (Cmd.del (dependencyKey name))) qk = none
  rw [lookup_del]
  by_cases hq : qk = dependencyKey name
  · rw [if_pos hq]
  · rw [if_neg hq, lookup_dels, if_pos h]

theorem invalidate_removes_record (s : RState) (name : String) :
    findEntry (invalidateRun s name) (dependencyKey name) = none := by
  unfold invalidateRun invalidateActions
  by_cases hlen : (smembers s (dependencyKey name)).length > 0
  · rw [if_pos hlen]
    show findEntry (applyCmds s ((smembers s (dependencyKey name)).map Cmd.del ++
      [Cmd.del (dependencyKey name)])) (dependencyKey name) = none
    rw [applyCmds_append]
    exact findEntry_del_self _ _
  · rw [if_neg hlen]
    exact findEntry_del_self s _

theorem invalidate_frame {s : RState} {name k' : String}
    (h1 : k' ∉ smembers s (dependencyKey name)) (h2 : k' ≠ dependencyKey name) :
    lookup (invalidateRun s name) k' = lookup s k' := by
  unfold invalidateRun invalidateActions
  by_cases hlen : (smembers s (dependencyKey name)).length > 0
  · rw [if_pos hlen]
    show lookup (applyCmds s ((smembers s (dependencyKey name)).map Cmd.del ++
      [Cmd.del (dependencyKey name)])) k' = lookup s k'
    rw [applyCmds_append]
    show lookup (applyCmd _ (Cmd.del (dependencyKey name))) k' = lookup s k'
    rw [lookup_del, if_neg h2, lookup_dels, if_neg h1]
  · rw [if_neg hlen]
    show lookup (applyCmd s (Cmd.del (dependencyKey name))) k' = lookup s k'
    rw [lookup_del, if_neg h2]

theorem invalidate_of_no_record {s : RState} {name : String}
    (h : findEntry s (dependencyKey name) = none) :
    invalidateRun s name = s := by
  unfold invalidateRun invalidateActions
  have hsm : smembers s (dependencyKey name) = [] := by
    simp [smembers, lookup, h]
  rw [hsm]
  simp only [List.length_nil, gt_iff_lt, Nat.lt_irrefl, if_false]
  show applyCmd s (.del (dependencyKey name)) = s
  simp only [applyCmd]
  rw [eraseKey_of_findIn_none h]

/-- The configuration the repository itself constructs (redisClient.ts):
compression off, all defaults. -/
def cfgPlain : Config := configureCache ⟨none, none, none⟩

/-- A small compressing configuration used to exercise the size check. -/
def cfgSmallComp : Config := ⟨true, 3600, 2⟩

/-- From an empty backend: set "k1" under dependency "d" with TTL 10, then
set "k2" under the same dependency with TTL 1 (cache.ts lines 63-82). -/
def dependencyTtlScenario : RState :=
  (setExec cfgPlain
    ((setExec cfgPlain (emptyState 0) "k1" [7] ["d"] 10).1)
    "k2" [8] ["d"] 1).1

/-- C1: the claim says the TTL of a dependency record is kept at least as
long as the longest TTL of any still-registered live cache key.  The code
(cache.ts line 78) instead runs EXPIRE with the current write's TTL on every
registration: after registering "k1" with TTL 10 and then "k2" with TTL 1
under dependency "d", "k1" is still registered and live until t = 10, yet
the record's expiry has been shortened to t = 1 — at any time in between,
the record is gone while "k1" is live, so the claim fails on the code. -/
theorem dependency_record_ttl_shortened :
    smembers dependencyTtlScenario (dependencyKey "d") = ["k1", "k2"] ∧
    expiryOf dependencyTtlScenario "k1" = some 10 ∧
    expiryOf dependencyTtlScenario (dependencyKey "d") = some 1 := by
  decide

/-- C2: with compression enabled, a payload whose uncompressed byte length
exceeds maxEntrySize makes set throw EntryTooLarge synchronously — the
command trace is an error, so no backend command is issued — and leaves the
backend state exactly as it was (the key, in particular, stays absent).
The size check exists only on the compression path; the compression-disabled
mode is claim C3. -/
theorem set_entry_too_large (cfg : Config) (s : RState) (queryKey : String)
    (data : Bytes) (dependencies : List String) (ttl : Nat)
    (hc : cfg.compression = true) (hlen : data.length > cfg.maxEntrySize) :
    setActions cfg queryKey data dependencies ttl = .error .entryTooLarge ∧
    setExec cfg s queryKey data dependencies ttl = (s, some .entryTooLarge) := by
  have ha : setActions cfg queryKey data dependencies ttl =
      .error .entryTooLarge := by
    unfold setActions
    simp [hc, hlen]
  exact ⟨ha, by unfold setExec; rw [ha]⟩

theorem set_entry_too_large_witness :
    cfgSmallComp.compression = true ∧
    ([1, 2, 3] : Bytes).length > cfgSmallComp.maxEntrySize ∧
    setActions cfgSmallComp "k3" [1, 2, 3] ["users"] 60 =
      .error .entryTooLarge ∧
    setExec cfgSmallComp (emptyState 0) "k3" [1, 2, 3] ["users"] 60 =
      (emptyState 0, some .entryTooLarge) := by
  have h := set_entry_too_large cfgSmallComp (emptyState 0) "k3" [1, 2, 3]
    ["users"] 60 (by decide) (by decide)
  exact ⟨by decide, by decide, h.1, h.2⟩

/-- C3: with compression disabled, set performs no size check at all: for
every payload — the hypotheses put no bound on its length relative to
maxEntrySize — the run reports no error and the backend write completes,
the key holding the raw payload. -/
theorem set_no_size_check_when_uncompressed (cfg : Config) (s : RState)
    (queryKey : String) (data : Bytes) (dependencies : List String)
    (ttl : Nat) (s1 : RState) (err : Option Err)
    (hc : cfg.compression = false) (httl : 0 < ttl)
    (hk : ∀ d ∈ dependencies, queryKey ≠ dependencyKey d)
    (hrun : setExec cfg s queryKey data dependencies ttl = (s1, err)) :
    err = none ∧ lookup s1 queryKey = some (.str data) := by
  have hpair : setExec cfg s queryKey data dependencies ttl =
      (applyTrace s (buildActions queryKey data dependencies ttl), none) := by
    unfold setExec setActions
    simp [hc]
  rw [hpair] at hrun
  have hs1 : s1 = applyTrace s (buildActions queryKey data dependencies ttl) :=
    (Prod.mk.injEq _ _ _ _ ▸ hrun : _ ∧ _).1.symm
  have herr : err = none := (Prod.mk.injEq _ _ _ _ ▸ hrun : _ ∧ _).2.symm
  have hset : setExec cfg s queryKey data dependencies ttl = (s1, none) := by
    rw [hpair, hs1]
  have h1 := set_lookup_primary hset hk httl
  exact ⟨herr, by simpa [storedValue, hc] using h1⟩

theorem set_no_size_check_when_uncompressed_witness :
    cfgPlain.compression = false ∧
    ([1, 2, 3, 4, 5] : Bytes).length > 2 ∧
    (setExec cfgPlain (emptyState 0) "big" [1, 2, 3, 4, 5] ["t"] 60).2 =
      none ∧
    lookup (setExec cfgPlain (emptyState 0) "big" [1, 2, 3, 4, 5] ["t"] 60).1
      "big" = some (.str [1, 2, 3, 4, 5]) := by
  have h := set_no_size_check_when_uncompressed cfgPlain (emptyState 0) "big"
    [1, 2, 3, 4, 5] ["t"] 60
    (setExec cfgPlain (emptyState 0) "big" [1, 2, 3, 4, 5] ["t"] 60).1
    (setExec cfgPlain (emptyState 0) "big" [1, 2, 3, 4, 5] ["t"] 60).2
    (by decide) (by decide) (by decide) rfl
  exact ⟨by decide, by decide, h.1, h.2⟩

/-- C4: a set with a non-empty dependency list is all-or-nothing: its whole
backend interaction is one MULTI/EXEC batch, so the only states observable
by a concurrent reader are the pre-state — none of the effects applied — and
the post-state, in which (remaining conjuncts) the primary write and every
dependency registration are applied. -/
theorem set_with_dependencies_atomic (cfg : Config) (s : RState)
    (queryKey : String) (data : Bytes) (dependencies : List String)
    (ttl : Nat) (s1 : RState)
    (hdeps : dependencies ≠ []) (httl : 0 < ttl)
    (hk : ∀ d ∈ dependencies, queryKey ≠ dependencyKey d)
    (hset : setExec cfg s queryKey data dependencies ttl = (s1, none)) :
    (∃ cs, setActions cfg queryKey data dependencies ttl = .ok [.batch cs] ∧
      statesOf s [.batch cs] = [s, s1]) ∧
    lookup s1 queryKey = some (.str (storedValue cfg data)) ∧
    (∀ d ∈ dependencies, queryKey ∈ smembers s1 (dependencyKey d)) := by
  rcases setExec_ok hset with ⟨ha, hs1⟩
  have hlen : dependencies.length > 0 := List.length_pos.2 hdeps
  refine ⟨⟨Cmd.setEx queryKey (storedValue cfg data) ttl ::
    depCmds dependencies queryKey ttl, ?_, ?_⟩,
    set_lookup_primary hset hk httl, set_registered hset httl⟩
  · rw [ha]
    unfold buildActions
    rw [if_pos hlen]
  · rw [hs1]
    unfold buildActions
    rw [if_pos hlen]
    rfl

theorem set_with_dependencies_atomic_witness :
    (["a", "b"] : List String) ≠ [] ∧
    (∃ cs, setActions cfgPlain "k" [3] ["a", "b"] 60 = .ok [.batch cs] ∧
      statesOf (emptyState 0) [.batch cs] =
        [emptyState 0, (setExec cfgPlain (emptyState 0) "k" [3] ["a", "b"] 60).1]) ∧
    lookup (setExec cfgPlain (emptyState 0) "k" [3] ["a", "b"] 60).1 "k" =
      some (.str (storedValue cfgPlain [3])) ∧
    (∀ d ∈ (["a", "b"] : List String),
      "k" ∈ smembers (setExec cfgPlain (emptyState 0) "k" [3] ["a", "b"] 60).1
        (dependencyKey d)) := by
  have h := set_with_dependencies_atomic cfgPlain (emptyState 0) "k" [3]
    ["a", "b"] 60 (setExec cfgPlain (emptyState 0) "k" [3] ["a", "b"] 60).1
    (by decide) (by decide) (by decide) rfl
  exact ⟨by decide, h.1, h.2.1, h.2.2⟩

/-- C5: after set(key, P, [name], ttl) succeeds, invalidate(name) makes a
subsequent get(key) return the absent sentinel, removes the record
dependency:name from the backend, and a second invalidate(name) is a no-op
— the state is unchanged, and invalidate has no failure outcome at all
(its result type carries no error). -/
theorem invalidate_after_set (cfg : Config) (s : RState) (queryKey : String)
    (data : Bytes) (name : String) (ttl : Nat) (s1 : RState)
    (httl : 0 < ttl)
    (hset : setExec cfg s queryKey data [name] ttl = (s1, none)) :
    get cfg (invalidateRun s1 name) queryKey = .ok none ∧
    findEntry (invalidateRun s1 name) (dependencyKey name) = none ∧
    invalidateRun (invalidateRun s1 name) name = invalidateRun s1 name := by
  have hreg : queryKey ∈ smembers s1 (dependencyKey name) :=
    set_registered hset httl name (by simp)
  have hdel : lookup (invalidateRun s1 name) queryKey = none :=
    invalidate_deletes_member hreg
  have hrec : findEntry (invalidateRun s1 name) (dependencyKey name) = none :=
    invalidate_removes_record s1 name
  exact ⟨by simp [get, hdel], hrec, invalidate_of_no_record hrec⟩

theorem invalidate_after_set_witness :
    (0 : Nat) < 60 ∧
    get cfgPlain
      (invalidateRun (setExec cfgPlain (emptyState 0) "k2" [9, 9] ["users"] 60).1
        "users") "k2" = .ok none ∧
    findEntry
      (invalidateRun (setExec cfgPlain (emptyState 0) "k2" [9, 9] ["users"] 60).1
        "users") (dependencyKey "users") = none ∧
    invalidateRun
      (invalidateRun (setExec cfgPlain (emptyState 0) "k2" [9, 9] ["users"] 60).1
        "users") "users" =
      invalidateRun (setExec cfgPlain (emptyState 0) "k2" [9, 9] ["users"] 60).1
        "users" := by
  have h := invalidate_after_set cfgPlain (emptyState 0) "k2" [9, 9] "users" 60
    (setExec cfgPlain (emptyState 0) "k2" [9, 9] ["users"] 60).1
    (by decide) rfl
  exact ⟨by decide, h.1, h.2.1, h.2.2⟩

/-- C6: a set naming several dependencies registers the key under every one
of them; invalidating any one of the names deletes the key; and a key not
registered under the invalidated name (and distinct from its record key) is
left exactly as it was — in particular keys registered only under other
dependency names survive. -/
theorem multi_dependency_registration_and_frame (cfg : Config) (s : RState)
    (queryKey : String) (data : Bytes) (dependencies : List String)
    (ttl : Nat) (s1 : RState) (name k' : String)
    (httl : 0 < ttl)
    (hset : setExec cfg s queryKey data dependencies ttl = (s1, none))
    (hname : name ∈ dependencies)
    (h1 : k' ∉ smembers s1 (dependencyKey name))
    (h2 : k' ≠ dependencyKey name) :
    (∀ d ∈ dependencies, queryKey ∈ smembers s1 (dependencyKey d)) ∧
    get cfg (invalidateRun s1 name) queryKey = .ok none ∧
    lookup (invalidateRun s1 name) k' = lookup s1 k' := by
  have hreg := set_registered hset httl
  have hdel := invalidate_deletes_member (hreg name hname)
  exact ⟨hreg, by simp [get, hdel], invalidate_frame h1 h2⟩

/-- The backend after registering "k9" under dependency "b" only, then "k1"
under both "a" and "b" (spec scenario D). -/
def twoDependencyScenario : RState :=
  (setExec cfgPlain ((setExec cfgPlain (emptyState 0) "k9" [1] ["b"] 60).1)
    "k1" [2] ["a", "b"] 60).1

theorem multi_dependency_registration_and_frame_witness :
    (0 : Nat) < 60 ∧
    (∀ d ∈ (["a", "b"] : List String),
      "k1" ∈ smembers twoDependencyScenario (dependencyKey d)) ∧
    get cfgPlain (invalidateRun twoDependencyScenario "a") "k1" = .ok none ∧
    lookup (invalidateRun twoDependencyScenario "a") "k9" =
      lookup twoDependencyScenario "k9" := by
  have h := multi_dependency_registration_and_frame cfgPlain
    ((setExec cfgPlain (emptyState 0) "k9" [1] ["b"] 60).1) "k1" [2]
    ["a", "b"] 60 twoDependencyScenario "a" "k9"
    (by decide) rfl (by decide) (by decide) (by decide)
  exact ⟨by decide, h.1, h.2.1, h.2.2⟩

theorem mem_depCmds_iff {c : Cmd} {ds : List String} {qk : String} {ttl : Nat} :
    c ∈ depCmds ds qk ttl ↔
      ∃ d ∈ ds, c = Cmd.sadd (dependencyKey d) qk ∨
        c = Cmd.expire (dependencyKey d) ttl := by
  simp [depCmds, List.mem_flatMap]

theorem count_depCmds_sadd_zero {ds : List String} {qk : String} {ttl : Nat}
    {d : String} (hd : d ∉ ds) :
    (depCmds ds qk ttl).count (Cmd.sadd (dependencyKey d) qk) = 0 := by
  rw [List.count_eq_zero]
  intro hmem
  rcases mem_depCmds_iff.1 hmem with ⟨d0, hd0, hc | hc⟩
  · have : dependencyKey d = dependencyKey d0 := by
      injection hc with h1 h2
    exact hd (dependencyKey_inj this ▸ hd0)
  · exact Cmd.noConfusion hc

theorem count_depCmds_expire_zero {ds : List String} {qk : String} {ttl : Nat}
    {d : String} (hd : d ∉ ds) :
    (depCmds ds qk ttl).count (Cmd.expire (dependencyKey d) ttl) = 0 := by
  rw [List.count_eq_zero]
  intro hmem
  rcases mem_depCmds_iff.1 hmem with ⟨d0, hd0, hc | hc⟩
  · exact Cmd.noConfusion hc
  · have : dependencyKey d = dependencyKey d0 := by
      injection hc with h1 h2
    exact hd (dependencyKey_inj this ▸ hd0)

theorem count_depCmds_sadd {ds : List String} (hnd : ds.Nodup) (qk : String)
    (ttl : Nat) {d : String} (hd : d ∈ ds) :
    (depCmds ds qk ttl).count (Cmd.sadd (dependencyKey d) qk) = 1 := by
  induction ds with
  | nil => simp at hd
  | cons d0 t ih =>
    rw [depCmds_cons]
    rcases List.mem_cons.1 hd with h | h
    · subst h
      have hnotin : d ∉ t := (List.nodup_cons.1 hnd).1
      simp [List.count_cons, count_depCmds_sadd_zero hnotin]
    · have hne : d ≠ d0 := by
        intro he
        exact (List.nodup_cons.1 hnd).1 (he ▸ h)
      have hkey : Cmd.sadd (dependencyKey d) qk ≠
          Cmd.sadd (dependencyKey d0) qk := by
        intro he
        injection he with h1 h2
        exact hne (dependencyKey_inj h1)
      simp [List.count_cons, ih (List.nodup_cons.1 hnd).2 h,
        Ne.symm hkey]

theorem count_depCmds_expire {ds : List String} (hnd : ds.Nodup) (qk : String)
    (ttl : Nat) {d : String} (hd : d ∈ ds) :
    (depCmds ds qk ttl).count (Cmd.expire (dependencyKey d) ttl) = 1 := by
  induction ds with
  | nil => simp at hd
  | cons d0 t ih =>
    rw [depCmds_cons]
    rcases List.mem_cons.1 hd with h | h
    · subst h
      have hnotin : d ∉ t := (List.nodup_cons.1 hnd).1
      simp [List.count_cons, count_depCmds_expire_zero hnotin]
    · have hne : d ≠ d0 := by
        intro he
        exact (List.nodup_cons.1 hnd).1 (he ▸ h)
      have hkey : Cmd.expire (dependencyKey d) ttl ≠
          Cmd.expire (dependencyKey d0) ttl := by
        intro he
        injection he with h1 h2
        exact hne (dependencyKey_inj h1)
      simp [List.count_cons, ih (List.nodup_cons.1 hnd).2 h,
        Ne.symm hkey]

theorem setActions_ok_eq {cfg : Config} {qk : String} {data : Bytes}
    {deps : List String} {ttl : Nat} {acts : List Action}
    (h : setActions cfg qk data deps ttl = .ok acts) :
    acts = buildActions qk (storedValue cfg data) deps ttl := by
  unfold setActions at h
  unfold storedValue
  by_cases hc : cfg.compression
  · by_cases hsz : data.length > cfg.maxEntrySize
    · simp [hc, hsz] at h
    · simp [hc, hsz] at h ⊢
      exact h.symm
  · simp [hc] at h ⊢
    exact h.symm

/-- C7: with a non-empty dependency list the trace `set` issues is one
single atomic batch whose commands are exactly: one TTL-bounded write of the
encoded value under the query key (the only write in the batch), and, for
each dependency name, one SADD of the key into the record dependency:name
and one EXPIRE of that record with the same ttl as the primary write —
and nothing else. -/
theorem set_single_batch_commands (cfg : Config) (queryKey : String)
    (data : Bytes) (dependencies : List String) (ttl : Nat)
    (acts : List Action)
    (hdeps : dependencies ≠ []) (hnd : dependencies.Nodup)
    (hok : setActions cfg queryKey data dependencies ttl = .ok acts) :
    ∃ cs, acts = [.batch cs] ∧
      cs.filter isWrite = [Cmd.setEx queryKey (storedValue cfg data) ttl] ∧
      (∀ d ∈ dependencies,
        cs.count (Cmd.sadd (dependencyKey d) queryKey) = 1 ∧
        cs.count (Cmd.expire (dependencyKey d) ttl) = 1) ∧
      (∀ c ∈ cs, c = Cmd.setEx queryKey (storedValue cfg data) ttl ∨
        ∃ d ∈ dependencies, c = Cmd.sadd (dependencyKey d) queryKey ∨
          c = Cmd.expire (dependencyKey d) ttl) := by
  have hacts := setActions_ok_eq hok
  have hlen : dependencies.length > 0 := List.length_pos.2 hdeps
  have hfilter : (depCmds dependencies queryKey ttl).filter isWrite = [] := by
    rw [List.filter_eq_nil_iff]
    intro c hc
    rcases mem_depCmds_iff.1 hc with ⟨d, hd, hc2 | hc2⟩ <;> subst hc2 <;>
      simp [isWrite]
  refine ⟨Cmd.setEx queryKey (storedValue cfg data) ttl ::
    depCmds dependencies queryKey ttl, ?_, ?_, ?_, ?_⟩
  · rw [hacts]
    unfold buildActions
    rw [if_pos hlen]
  · rw [List.filter_cons]
    simp [isWrite, hfilter]
  · intro d hd
    constructor
    · simp [List.count_cons, count_depCmds_sadd hnd queryKey ttl hd]
    · simp [List.count_cons, count_depCmds_expire hnd queryKey ttl hd]
  · intro c hc
    rcases List.mem_cons.1 hc with h | h
    · exact Or.inl h
    · exact Or.inr (mem_depCmds_iff.1 h)

theorem set_single_batch_commands_witness :
    (["a", "b"] : List String) ≠ [] ∧
    (["a", "b"] : List String).Nodup ∧
    (∃ cs, (buildActions "k" (storedValue cfgPlain [3]) ["a", "b"] 60 :
        List Action) = [.batch cs] ∧
      cs.filter isWrite = [Cmd.setEx "k" (storedValue cfgPlain [3]) 60] ∧
      (∀ d ∈ (["a", "b"] : List String),
        cs.count (Cmd.sadd (dependencyKey d) "k") = 1 ∧
        cs.count (Cmd.expire (dependencyKey d) 60) = 1) ∧
      (∀ c ∈ cs, c = Cmd.setEx "k" (storedValue cfgPlain [3]) 60 ∨
        ∃ d ∈ (["a", "b"] : List String),
          c = Cmd.sadd (dependencyKey d) "k" ∨
            c = Cmd.expire (dependencyKey d) 60)) := by
  have h := set_single_batch_commands cfgPlain "k" [3] ["a", "b"] 60
    (buildActions "k" (storedValue cfgPlain [3]) ["a", "b"] 60)
    (by decide) (by decide) rfl
  exact ⟨by decide, by decide, h⟩

/-- C8: with compression disabled the codec is the identity: after a
successful set, the backend holds the raw payload unchanged under the query
key, and a get (entry still live) returns exactly that payload. -/
theorem roundtrip_without_compression (cfg : Config) (s : RState)
    (queryKey : String) (data : Bytes) (dependencies : List String)
    (ttl : Nat) (s1 : RState)
    (hc : cfg.compression = false) (httl : 0 < ttl)
    (hk : ∀ d ∈ dependencies, queryKey ≠ dependencyKey d)
    (hset : setExec cfg s queryKey data dependencies ttl = (s1, none)) :
    lookup s1 queryKey = some (.str data) ∧
    get cfg s1 queryKey = .ok (some data) := by
  have h1 := set_lookup_primary hset hk httl
  have h2 : lookup s1 queryKey = some (.str data) := by
    simpa [storedValue, hc] using h1
  exact ⟨h2, by simp [get, h2, hc]⟩

theorem roundtrip_without_compression_witness :
    cfgPlain.compression = false ∧
    lookup (setExec cfgPlain (emptyState 0) "k1" [104, 105] [] 60).1 "k1" =
      some (.str [104, 105]) ∧
    get cfgPlain (setExec cfgPlain (emptyState 0) "k1" [104, 105] [] 60).1
      "k1" = .ok (some [104, 105]) := by
  have h := roundtrip_without_compression cfgPlain (emptyState 0) "k1"
    [104, 105] [] 60 (setExec cfgPlain (emptyState 0) "k1" [104, 105] [] 60).1
    (by decide) (by decide) (by decide) rfl
  exact ⟨by decide, h.1, h.2⟩

/-- C9: with compression enabled and the payload within maxEntrySize, the
codec round trip is lossless: the backend holds the compressed bytes, and a
get (entry still live) decompresses them and returns exactly the original
payload. -/
theorem roundtrip_with_compression (cfg : Config) (s : RState)
    (queryKey : String) (data : Bytes) (dependencies : List String)
    (ttl : Nat) (s1 : RState)
    (hc : cfg.compression = true) (hsz : data.length ≤ cfg.maxEntrySize)
    (httl : 0 < ttl)
    (hk : ∀ d ∈ dependencies, queryKey ≠ dependencyKey d)
    (hset : setExec cfg s queryKey data dependencies ttl = (s1, none)) :
    lookup s1 queryKey = some (.str (compress data)) ∧
    get cfg s1 queryKey = .ok (some data) := by
  have h1 := set_lookup_primary hset hk httl
  have h2 : lookup s1 queryKey = some (.str (compress data)) := by
    simpa [storedValue, hc] using h1
  refine ⟨h2, ?_⟩
  simp [get, h2, hc, uncompress_compress]

theorem roundtrip_with_compression_witness :
    (⟨true, 3600, 10⟩ : Config).compression = true ∧
    ([1, 1, 2] : Bytes).length ≤ (⟨true, 3600, 10⟩ : Config).maxEntrySize ∧
    lookup (setExec ⟨true, 3600, 10⟩ (emptyState 0) "k4" [1, 1, 2] [] 60).1
      "k4" = some (.str (compress [1, 1, 2])) ∧
    get ⟨true, 3600, 10⟩
      (setExec ⟨true, 3600, 10⟩ (emptyState 0) "k4" [1, 1, 2] [] 60).1 "k4" =
      .ok (some [1, 1, 2]) := by
  have h := roundtrip_with_compression ⟨true, 3600, 10⟩ (emptyState 0) "k4"
    [1, 1, 2] [] 60
    (setExec ⟨true, 3600, 10⟩ (emptyState 0) "k4" [1, 1, 2] [] 60).1
    (by decide) (by decide) (by decide) (by decide) rfl
  exact ⟨by decide, by decide, h.1, h.2⟩

/-- C10: a miss is a defined non-error outcome: get on a key never written
(an empty backend) returns the absent sentinel `ok none`; get on a key whose
TTL has elapsed (the clock advanced by at least the ttl of its write)
returns `ok none`; and `ok none` is distinct from every error outcome. -/
theorem get_miss_is_absent_not_error (cfg : Config) (t : Nat) (s : RState)
    (queryKey : String) (data : Bytes) (dependencies : List String)
    (ttl d : Nat) (s1 : RState)
    (hk : ∀ dep ∈ dependencies, queryKey ≠ dependencyKey dep)
    (hset : setExec cfg s queryKey data dependencies ttl = (s1, none))
    (helapsed : ttl ≤ d) :
    get cfg (emptyState t) queryKey = .ok none ∧
    get cfg (tick s1 d) queryKey = .ok none ∧
    (∀ e : Err, (Except.ok none : Except Err (Option Bytes)) ≠ .error e) := by
  refine ⟨?_, ?_, fun e h => Except.noConfusion h⟩
  · simp [get, lookup, emptyState, findEntry, findIn]
  · rcases set_findEntry_primary hset hk with ⟨hf, hn⟩
    have hfe : findEntry (tick s1 d) queryKey = findEntry s1 queryKey := rfl
    have hnotlive : ¬ ((tick s1 d).now < s.now + ttl) := by
      show ¬ (s1.now + d < s.now + ttl)
      rw [hn]
      omega
    have hlk : lookup (tick s1 d) queryKey = none := by
      unfold lookup
      rw [hfe, hf]
      simp [isLive, hnotlive]
    simp [get, hlk]

theorem get_miss_is_absent_not_error_witness :
    (1 : Nat) ≤ 2 ∧
    get cfgPlain (emptyState 5) "never" = .ok none ∧
    get cfgPlain (tick (setExec cfgPlain (emptyState 0) "k1" [5] [] 1).1 2)
      "k1" = .ok none ∧
    (∀ e : Err, (Except.ok none : Except Err (Option Bytes)) ≠ .error e) := by
  have h := get_miss_is_absent_not_error cfgPlain 5 (emptyState 0) "k1" [5]
    [] 1 2 (setExec cfgPlain (emptyState 0) "k1" [5] [] 1).1
    (by decide) rfl (by decide)
  refine ⟨by decide, ?_, h.2.1, h.2.2⟩
  have h2 := get_miss_is_absent_not_error cfgPlain 5 (emptyState 0) "never"
    [5] [] 1 2 (setExec cfgPlain (emptyState 0) "never" [5] [] 1).1
    (by decide) rfl (by decide)
  exact h2.1

end CacheMunk
